import Mathlib

/-!
Shallow embedding of the buffrs package-manager core
(`src/package.rs` and `src/package/compressed.rs`).

Modelling conventions:

* Tar archives are modelled as the sequence of their entries.  Serializing a
  tar stream and gzip-compressing it at a fixed compression level (as
  `flate2::Compression::default()` does) is a deterministic, injective
  function of that entry sequence, so archive bytes are identified with the
  entry sequence itself; `ArchiveBytes.corrupt` stands for byte strings that
  do not decompress to a well-formed tar stream.  Equality of `ArchiveBytes`
  models byte equality of the `.tgz` output.
* File bytes are modelled by `FileContent`: either the (injective,
  banner-aware) TOML rendering of a manifest, arbitrary other valid-UTF-8
  text, or invalid UTF-8 bytes.
* The manifest module (`src/manifest.rs`) is not among the sources; its data
  model and its TOML round-trip behaviour are modelled from the spec.
* Filesystem directories are modelled as association lists from relative
  paths (component lists) to file contents.
-/

namespace Buffrs

/-- Package types (src/package.rs `PackageType`): `Lib` or `Api`. -/
inductive PackageType
  | lib
  | api
deriving DecidableEq

/-- Modelled from the spec: the `package` section of a manifest (name,
version, kind, optional description) — the manifest module is missing from
the sources.  The field `kind` renders the Rust field `type`. -/
structure PackageManifest where
  name : String
  version : String
  kind : PackageType
  description : Option String
deriving DecidableEq

/-- Modelled from the spec: a dependency record (package name, version
requirement, registry reference, repository, optional local path override) —
the manifest module is missing from the sources. -/
structure Dependency where
  package : String
  version : String
  registry : Option String
  repository : Option String
  path : Option String
deriving DecidableEq

/-- Modelled from the spec: the edition marker used for forward compatibility
of the manifest format; `unknown` is any unrecognized edition. -/
inductive Edition
  | current
  | unknown
deriving DecidableEq

/-- Modelled from the spec: a manifest — optional package section, ordered
dependency list, edition marker. -/
structure Manifest where
  edition : Edition
  package : Option PackageManifest
  dependencies : List Dependency
deriving DecidableEq

/-- Modelled from the spec: `Manifest::new` builds a manifest carrying the
current edition from the given package/dependency data. -/
def Manifest.new (package : Option PackageManifest) (dependencies : List Dependency) :
    Manifest :=
  ⟨Edition.current, package, dependencies⟩

/-- Errors of the archive subsystem (src/package/compressed.rs). -/
inductive ArchiveError
  | noPackageDeclaration
  | unresolvablePathDependency
  | corruptedTar
  | missingManifest
  | invalidEncoding
  | malformedManifest
deriving DecidableEq

/-- Modelled from the spec: `for_publishing` rewrites a local-path dependency
to a registry dependency and fails if the path dependency cannot be resolved
to a publishable (registry + repository) reference. -/
def Dependency.forPublishing (d : Dependency) : Except ArchiveError Dependency :=
  match d.path with
  | none => Except.ok d
  | some _ =>
    match d.registry, d.repository with
    | some _, some _ => Except.ok { d with path := none }
    | _, _ => Except.error ArchiveError.unresolvablePathDependency

/-- Modelled from the spec: publishing normalization of a manifest — every
path dependency is rewritten to its registry form. -/
def Manifest.forPublishing (m : Manifest) : Except ArchiveError Manifest := do
  let deps ← m.dependencies.mapM Dependency.forPublishing
  Except.ok ⟨m.edition, m.package, deps⟩

/-- Modelled from the spec: the bytes of one file.  `manifestText banner m`
is the TOML rendering of `m` (with the generated-file banner comment
prepended when `banner` is true) — TOML rendering is injective and the
banner only adds comment lines; `text s` is any other valid-UTF-8 content;
`invalidUtf8` is content that is not valid UTF-8. -/
inductive FileContent
  | manifestText (banner : Bool) (m : Manifest)
  | text (s : String)
  | invalidUtf8
deriving DecidableEq

/-- Decoding file bytes as UTF-8 and parsing them as a TOML manifest
(`String::from_utf8` followed by `toml::from_str` in the source); the banner
consists of comment lines, which the parser skips. -/
def tryParseContent : FileContent → Except ArchiveError Manifest
  | FileContent.manifestText _ m => Except.ok m
  | FileContent.text _ => Except.error ArchiveError.malformedManifest
  | FileContent.invalidUtf8 => Except.error ArchiveError.invalidEncoding

/-- One tar entry: path (as components), permission bits, contents. -/
structure TarEntry where
  path : List String
  mode : Nat
  contents : FileContent
deriving DecidableEq

/-- Compressed archive bytes, identified with the entry sequence they
decompress to (see the module docstring); `corrupt` covers bytes that fail
gzip decompression or tar framing. -/
inductive ArchiveBytes
  | valid (entries : List TarEntry)
  | corrupt
deriving DecidableEq

/-- Gzip-decompress and read the tar entry sequence. -/
def gunzipEntries : ArchiveBytes → Option (List TarEntry)
  | ArchiveBytes.valid entries => some entries
  | ArchiveBytes.corrupt => none

/-- `MANIFEST_FILE` from the manifest module. -/
def manifestFileName : String := "Proto.toml"

/-- Rust `Path::ends_with(MANIFEST_FILE)`: component-wise suffix test
against the single component `Proto.toml` — the final component must equal
it, so `Proto.toml.orig` does not match. -/
def pathEndsWithFile (p : List String) (file : String) : Bool :=
  p.getLast? == some file

/-- Lexicographic strict comparison of character lists (the byte-wise
comparison Rust uses on path components; UTF-8 byte order coincides with
code-point order). -/
def charListLtb : List Char → List Char → Bool
  | [], [] => false
  | [], _ :: _ => true
  | _ :: _, [] => false
  | a :: as, b :: bs =>
    if a < b then true else if b < a then false else charListLtb as bs

/-- Strict comparison of path components. -/
def strLtb (a b : String) : Bool :=
  charListLtb a.data b.data

/-- Lexicographic (non-strict) comparison of paths, component-wise; models
the `Ord` instance of `PathBuf` that `BTreeMap` iteration follows. -/
def keyLeb : List String → List String → Bool
  | [], _ => true
  | _ :: _, [] => false
  | a :: as, b :: bs =>
    if strLtb a b then true else if strLtb b a then false else keyLeb as bs

/-- Ordering of file-map entries by their path key. -/
def fileLe (a b : List String × FileContent) : Prop :=
  keyLeb a.1 b.1 = true

instance : DecidableRel fileLe := fun a b =>
  inferInstanceAs (Decidable (keyLeb a.1 b.1 = true))

/-- Strict ordering of file-map entries: ordered keys that also differ. -/
def fileLt (a b : List String × FileContent) : Prop :=
  fileLe a b ∧ a.1 ≠ b.1

/-- Iterating a `BTreeMap<PathBuf, Bytes>` yields its entries in ascending
key order; modelled by sorting the association list by path. -/
def sortFiles (files : List (List String × FileContent)) :
    List (List String × FileContent) :=
  List.insertionSort fileLe files

/-- A tar entry for one mapped file: `create` gives every file entry the
read-only permission bits `0o444`. -/
def fileEntry (f : List String × FileContent) : TarEntry :=
  ⟨f.1, 0o444, f.2⟩

/-- State of one directory: `none` when the directory does not exist,
otherwise the association list of the files beneath it. -/
def DirState : Type :=
  Option (List (List String × FileContent))

/-- Writing one file: any previous file at the same path is replaced. -/
def writeFile (fsys : List (List String × FileContent)) (p : List String)
    (c : FileContent) : List (List String × FileContent) :=
  fsys.filter (fun f => decide (f.1 ≠ p)) ++ [(p, c)]

/-- `tar::Archive::unpack`: extract every entry in order into the directory
contents `fsys`. -/
def tarExtract (entries : List TarEntry) (fsys : List (List String × FileContent)) :
    List (List String × FileContent) :=
  entries.foldl (fun fs e => writeFile fs e.path e.contents) fsys

/-- Reading the file at path `p` from directory contents. -/
def lookupFile (fsys : List (List String × FileContent)) (p : List String) :
    Option FileContent :=
  (fsys.find? (fun f => decide (f.1 = p))).map Prod.snd

/-- `fs::remove_dir_all(path).await.ok()`: the directory is gone afterwards;
a removal error (in particular a missing directory) is ignored. -/
def removeDirAllOk (_ : DirState) : DirState :=
  none

/-- `fs::create_dir_all(path)`: creates the directory if absent, keeps its
contents if present. -/
def createDirAll (d : DirState) : DirState :=
  some (d.getD [])

namespace Compressed

/-- src/package/compressed.rs `Package`: a parsed manifest paired with the
compressed archive bytes that produced it. -/
structure Package where
  manifest : Manifest
  tgz : ArchiveBytes
deriving DecidableEq

/-- compressed.rs `create` line 51: rebuild a conforming manifest if the
edition is unknown. -/
def normalizeEdition (m : Manifest) : Manifest :=
  if m.edition = Edition.unknown then Manifest.new m.package m.dependencies else m

/-- The entry sequence assembled by `Package::create`: the normalized
manifest (with banner) under `Proto.toml`, the original manifest under
`Proto.toml.orig` (both mode `0o444`), then the file entries. -/
def createEntries (published original : Manifest)
    (sorted : List (List String × FileContent)) : List TarEntry :=
  TarEntry.mk [manifestFileName] 0o444 (FileContent.manifestText true published) ::
    TarEntry.mk [manifestFileName ++ ".orig"] 0o444
      (FileContent.manifestText false original) ::
    sorted.map fileEntry

/-- src/package/compressed.rs `Package::create`: normalize an unknown
edition, require a package declaration, write the publishing-normalized
manifest, the original manifest, and the files in ascending path order, then
compress. -/
def Package.create (manifest : Manifest)
    (files : List (List String × FileContent)) : Except ArchiveError Package :=
  let m := normalizeEdition manifest
  if m.package.isNone then Except.error ArchiveError.noPackageDeclaration
  else
    match m.forPublishing with
    | Except.error e => Except.error e
    | Except.ok published =>
      Except.ok ⟨m, ArchiveBytes.valid (createEntries published m (sortFiles files))⟩

/-- src/package/compressed.rs `Package::parse`: decompress, scan the tar
entries for the first one whose path ends with the manifest filename, and
parse its contents as a manifest. -/
def Package.parse (tgz : ArchiveBytes) : Except ArchiveError Package :=
  match gunzipEntries tgz with
  | none => Except.error ArchiveError.corruptedTar
  | some entries =>
    match entries.find? (fun e => pathEndsWithFile e.path manifestFileName) with
    | none => Except.error ArchiveError.missingManifest
    | some e =>
      match tryParseContent e.contents with
      | Except.error err => Except.error err
      | Except.ok m => Except.ok ⟨m, tgz⟩

/-- src/package/compressed.rs `Package::unpack`: decompress, then
`fs::remove_dir_all(path).await.ok()` (any removal error — in particular a
missing destination — is ignored), recreate the destination, and extract the
entries into it; the resulting directory contents are returned. -/
def Package.unpack (p : Package) (dest : DirState) :
    Except ArchiveError (List (List String × FileContent)) :=
  match gunzipEntries p.tgz with
  | none => Except.error ArchiveError.corruptedTar
  | some entries =>
    Except.ok (tarExtract entries ((createDirAll (removeDirAllOk dest)).getD []))

/-- src/package/compressed.rs `Package::name`: asserts that the package
section is present; `none` models the `assert!`/`expect` panic. -/
def Package.name (p : Package) : Option String :=
  p.manifest.package.map PackageManifest.name

/-- src/package/compressed.rs `Package::version`: asserts that the package
section is present; `none` models the `assert!`/`expect` panic. -/
def Package.version (p : Package) : Option String :=
  p.manifest.package.map PackageManifest.version

end Compressed

/-- Failures of src/package.rs `PackageId::try_from`, one per `ensure!`. -/
inductive IdError
  | tooShort
  | invalidCharacters
  | emptyId
  | nonAlphabeticStart
deriving DecidableEq

namespace PackageId

/-- The per-character test of src/package.rs line 369:
`(c.is_ascii_alphanumeric() && c.is_ascii_lowercase()) || c == '-'`.
`Char.isAlphanum` and `Char.isLower` match the ASCII-only Rust predicates. -/
def validChar (c : Char) : Bool :=
  (c.isAlphanum && c.isLower) || c == '-'

/-- src/package.rs `PackageId::try_from` (lines 357-383): length (in bytes)
must exceed 2, every character must pass `validChar`, and the first
character must be ASCII-alphabetic.  The `emptyId` arm renders the
`value.get(0..1)` context error; it is unreachable after the length check
for the all-ASCII strings that pass the character check. -/
def tryFrom (value : String) : Except IdError String :=
  if value.utf8ByteSize ≤ 2 then Except.error IdError.tooShort
  else if ¬ value.toList.all validChar then Except.error IdError.invalidCharacters
  else
    match value.toList with
    | [] => Except.error IdError.emptyId
    | c :: _ =>
      if c.isAlpha then Except.ok value else Except.error IdError.nonAlphabeticStart

/-- src/package.rs `PackageId::as_package_dir`: `self.0.replace('-', "_")`. -/
def asPackageDir (s : String) : String :=
  String.mk (s.toList.map (fun c => if c == '-' then '_' else c))

end PackageId

/-- src/package.rs `Package`: the package section of the manifest, paired
with the compressed archive bytes. -/
structure Package where
  manifest : PackageManifest
  tgz : ArchiveBytes
deriving DecidableEq

/-- Failures of the package-store operations in src/package.rs, one per
error-context site relevant to the modelled operations. -/
inductive StoreError
  | downloadFailed
  | decompressFailed
  | removeFailed
  | manifestMissing
  | manifestMalformed
  | releaseNeedsPackage
  | libHasDependencies
  | resolveFailed
  | depMissingPackageSection
  | depNotLib
deriving DecidableEq

/-- `PackageStore::PROTO_DEP_PATH`. -/
def protoDepPath : List String := ["proto", "dep"]

/-- src/package.rs `PackageStore::unpack` (lines 69-100): decompress, compute
`pkg_dir = path.join(name.as_package_dir())`, then
`fs::remove_dir_all(&pkg_dir).await.wrap_err(..)?` — the removal error is
propagated (not ignored), so a missing `pkg_dir` aborts the unpack — then
recreate the directory and extract the archive into it.  `pkgDir` is the
state of `pkg_dir`; the resulting directory contents are returned. -/
def PackageStore.unpack (p : Package) (pkgDir : DirState) :
    Except StoreError (List (List String × FileContent)) :=
  match gunzipEntries p.tgz with
  | none => Except.error StoreError.decompressFailed
  | some entries =>
    match pkgDir with
    | none => Except.error StoreError.removeFailed
    | some _ => Except.ok (tarExtract entries ((createDirAll none).getD []))

/-- src/package.rs `PackageStore::resolve`, given the contents of the
package's store directory: read `Proto.toml` (failing if it is absent or not
valid UTF-8) and parse it as a manifest. -/
def PackageStore.resolveStored (fsys : List (List String × FileContent)) :
    Except StoreError Manifest :=
  match lookupFile fsys [manifestFileName] with
  | none => Except.error StoreError.manifestMissing
  | some (FileContent.manifestText _ m) => Except.ok m
  | some (FileContent.text _) => Except.error StoreError.manifestMalformed
  | some FileContent.invalidUtf8 => Except.error StoreError.manifestMissing

/-- The manifest `PackageStore::resolve` reads right after `pkg` was
unpacked: the `Proto.toml` of the freshly extracted archive (install unpacks
into `proto/dep/<as_package_dir>` and resolve reads from the same
directory). -/
def resolveInstalled (pkg : Package) : Except StoreError Manifest :=
  match gunzipEntries pkg.tgz with
  | none => Except.error StoreError.decompressFailed
  | some entries => PackageStore.resolveStored (tarExtract entries [])

/-- Observable store events of `PackageStore::install`: a registry download,
or an unpack of a package into the given directory (the directory already
includes the `as_package_dir` leaf component appended by `unpack`). -/
inductive Event
  | download (d : Dependency)
  | unpackAt (dir : List String)
deriving DecidableEq

/-- The dependency loop of `PackageStore::install` (lines 122-138): for each
dependency of the resolved manifest, in declaration order, download it and
unpack it beneath `packageDir`; the first failing download aborts the
loop. -/
def installDeps (registry : Dependency → Option Package) (packageDir : List String) :
    List Dependency → Except StoreError (List Event)
  | [] => Except.ok []
  | d :: ds =>
    match registry d with
    | none => Except.error StoreError.downloadFailed
    | some p =>
      match installDeps registry packageDir ds with
      | Except.error e => Except.error e
      | Except.ok evs =>
        Except.ok (Event.download d ::
          Event.unpackAt (packageDir ++ [PackageId.asPackageDir p.manifest.name]) :: evs)

/-- src/package.rs `PackageStore::install` (lines 103-141): download the
requested dependency, unpack it into `proto/dep` (its leaf directory being
`as_package_dir` of its name), resolve the freshly unpacked manifest, then
download and unpack each of its dependencies beneath
`proto/dep/<name.as_str()>` — note the raw name, not `as_package_dir`.  The
filesystem side effects of each unpack are modelled by
`PackageStore.unpack`; this function records the event trace. -/
def PackageStore.install (dep : Dependency) (registry : Dependency → Option Package) :
    Except StoreError (List Event) :=
  match registry dep with
  | none => Except.error StoreError.downloadFailed
  | some pkg =>
    match resolveInstalled pkg with
    | Except.error e => Except.error e
    | Except.ok m =>
      match installDeps registry (protoDepPath ++ [pkg.manifest.name]) m.dependencies with
      | Except.error e => Except.error e
      | Except.ok evs =>
        Except.ok (Event.download dep ::
          Event.unpackAt (protoDepPath ++ [PackageId.asPackageDir pkg.manifest.name]) :: evs)

/-- The downloads contained in an event trace, in order. -/
def downloadsOf (evs : List Event) : List Dependency :=
  evs.filterMap (fun e =>
    match e with
    | Event.download d => some d
    | Event.unpackAt _ => none)

/-- The dependency checks of `PackageStore::release` (lines 183-196): each
dependency is resolved locally (`resolve` is the oracle for what
`PackageStore::resolve` returns), must contain a package declaration, and
must be of kind `Lib`; the first failure aborts. -/
def checkDependencies (resolve : String → Option Manifest) :
    List Dependency → Except StoreError Unit
  | [] => Except.ok ()
  | d :: ds =>
    match resolve d.package with
    | none => Except.error StoreError.resolveFailed
    | some r =>
      match r.package with
      | none => Except.error StoreError.depMissingPackageSection
      | some p =>
        if p.kind = PackageType.lib then checkDependencies resolve ds
        else Except.error StoreError.depNotLib

/-- src/package.rs `PackageStore::release` (lines 168-258): require a package
section; a `Lib` manifest must be dependency-free; every dependency must
resolve locally to a `Lib` package; only then is the archive built (the
collected `.proto` files, then the serialized manifest, tar'd and
compressed).  `protoFiles` stands for the extension-filtered files collected
beneath the source directory. -/
def PackageStore.release (m : Manifest) (resolve : String → Option Manifest)
    (protoFiles : List (List String × FileContent)) : Except StoreError Package :=
  match m.package with
  | none => Except.error StoreError.releaseNeedsPackage
  | some pkg =>
    if pkg.kind = PackageType.lib ∧ m.dependencies ≠ [] then
      Except.error StoreError.libHasDependencies
    else
      match checkDependencies resolve m.dependencies with
      | Except.error e => Except.error e
      | Except.ok _ =>
        Except.ok ⟨pkg, ArchiveBytes.valid
          (protoFiles.map (fun f => TarEntry.mk f.1 0 f.2) ++
            [TarEntry.mk [manifestFileName] 0 (FileContent.manifestText false m)])⟩

instance {ε α : Type} [DecidableEq ε] [DecidableEq α] : DecidableEq (Except ε α) :=
  fun x y =>
    match x, y with
    | Except.ok a, Except.ok b =>
      if h : a = b then isTrue (by rw [h]) else isFalse (fun hh => h (Except.ok.inj hh))
    | Except.error a, Except.error b =>
      if h : a = b then isTrue (by rw [h]) else isFalse (fun hh => h (Except.error.inj hh))
    | Except.ok _, Except.error _ => isFalse (fun hh => Except.noConfusion hh)
    | Except.error _, Except.ok _ => isFalse (fun hh => Except.noConfusion hh)

/-- A dependency-free `Lib` manifest for the package `geo`. -/
def geoManifest : Manifest :=
  ⟨Edition.current, some ⟨"geo", "1.0.0", PackageType.lib, none⟩, []⟩

/-- Two schema files, listed in non-ascending path order. -/
def geoFiles : List (List String × FileContent) :=
  [(["units.proto"], FileContent.text "message Unit"),
   (["coords.proto"], FileContent.text "message Coord")]

/-- The same logical file map as `geoFiles`, inserted in the other order. -/
def geoFilesSwapped : List (List String × FileContent) :=
  [(["coords.proto"], FileContent.text "message Coord"),
   (["units.proto"], FileContent.text "message Unit")]

/-- The package `Package.create geoManifest geoFiles` produces. -/
def geoPackage : Compressed.Package :=
  ⟨geoManifest,
    ArchiveBytes.valid
      (Compressed.createEntries geoManifest geoManifest (sortFiles geoFiles))⟩

/-- A manifest with no package section (a pure dependency-aggregation
manifest). -/
def aggregationManifest : Manifest :=
  ⟨Edition.current, none, []⟩

/-- Archive bytes holding one well-formed manifest entry whose manifest has
no package section. -/
def packagelessArchive : ArchiveBytes :=
  ArchiveBytes.valid
    [⟨[manifestFileName], 0o444, FileContent.manifestText false aggregationManifest⟩]

/-- A registry dependency on the package `baz`. -/
def bazDependency : Dependency :=
  ⟨"baz", "=1.0.0", some "registry", some "repo", none⟩

/-- The `baz` package served by the demo registry. -/
def bazPackage : Package :=
  ⟨⟨"baz", "1.0.0", PackageType.lib, none⟩,
    ArchiveBytes.valid
      [⟨[manifestFileName], 0o444,
        FileContent.manifestText false
          ⟨Edition.current, some ⟨"baz", "1.0.0", PackageType.lib, none⟩, []⟩⟩]⟩

/-- A registry dependency on the package `foo-bar` (a name with a dash). -/
def fooBarDependency : Dependency :=
  ⟨"foo-bar", "=1.0.0", some "registry", some "repo", none⟩

/-- The manifest embedded in the `foo-bar` archive: it declares `baz`. -/
def fooBarManifest : Manifest :=
  ⟨Edition.current, some ⟨"foo-bar", "1.0.0", PackageType.api, none⟩, [bazDependency]⟩

/-- The `foo-bar` package served by the demo registry. -/
def fooBarPackage : Package :=
  ⟨⟨"foo-bar", "1.0.0", PackageType.api, none⟩,
    ArchiveBytes.valid
      [⟨[manifestFileName], 0o444, FileContent.manifestText false fooBarManifest⟩]⟩

/-- A demo registry serving `foo-bar` and `baz`. -/
def demoRegistry (d : Dependency) : Option Package :=
  if d = fooBarDependency then some fooBarPackage
  else if d = bazDependency then some bazPackage
  else none

/-- The package each dependency of `fooBarManifest` resolves to. -/
def demoRegistryPick (_ : Dependency) : Package :=
  bazPackage

/-- A manifest of kind `Api` declaring one dependency, on `svc-api`. -/
def apiClientManifest : Manifest :=
  ⟨Edition.current, some ⟨"client", "1.0.0", PackageType.api, none⟩,
    [⟨"svc-api", "=1.0.0", some "registry", some "repo", none⟩]⟩

/-- A local store in which `svc-api` resolves to an `Api`-kind package. -/
def apiStore (name : String) : Option Manifest :=
  if name = "svc-api" then
    some ⟨Edition.current, some ⟨"svc-api", "1.0.0", PackageType.api, none⟩, []⟩
  else none

/-- A `Lib`-kind manifest that (illegally) declares a dependency. -/
def libWithDepManifest : Manifest :=
  ⟨Edition.current, some ⟨"geo", "1.0.0", PackageType.lib, none⟩, [bazDependency]⟩

theorem charListLtb_asymm : ∀ (a b : List Char),
    charListLtb a b = true → charListLtb b a = false
  | [], [] => by simp [charListLtb]
  | [], _ :: _ => by simp [charListLtb]
  | _ :: _, [] => by simp [charListLtb]
  | a :: as, b :: bs => by
    by_cases hab : a < b
    · have hba : ¬ b < a := lt_asymm hab
      simp [charListLtb, hab, hba]
    · by_cases hba : b < a
      · simp [charListLtb, hab, hba]
      · simpa [charListLtb, hab, hba] using charListLtb_asymm as bs

theorem charListLtb_trans : ∀ (a b c : List Char),
    charListLtb a b = true → charListLtb b c = true → charListLtb a c = true
  | [], [], _ :: _, _, _ => by simp [charListLtb]
  | [], _ :: _, _ :: _, _, _ => by simp [charListLtb]
  | [], b, [], _, h2 => by cases b <;> simp [charListLtb] at h2
  | a :: as, b, [], _, h2 => by cases b <;> simp [charListLtb] at h2
  | _ :: _, [], _ :: _, h1, _ => by simp [charListLtb] at h1
  | a :: as, b :: bs, c :: cs, h1, h2 => by
    by_cases hab : a < b
    · by_cases hbc : b < c
      · simp [charListLtb, lt_trans hab hbc]
      · by_cases hcb : c < b
        · simp [charListLtb, hbc, hcb] at h2
        · have hbc' : b = c := le_antisymm (not_lt.mp hcb) (not_lt.mp hbc)
          subst hbc'
          simp [charListLtb, hab]
    · by_cases hba : b < a
      · simp [charListLtb, hab, hba] at h1
      · have hab' : a = b := le_antisymm (not_lt.mp hba) (not_lt.mp hab)
        subst hab'
        by_cases hac : a < c
        · simp [charListLtb, hac]
        · by_cases hca : c < a
          · simp [charListLtb, hac, hca] at h2
          · simp only [charListLtb, if_neg hab, if_neg hba] at h1
            simp only [charListLtb, if_neg hac, if_neg hca] at h2 ⊢
            exact charListLtb_trans as bs cs h1 h2

theorem charListLtb_eq : ∀ (a b : List Char),
    charListLtb a b = false → charListLtb b a = false → a = b
  | [], [], _, _ => rfl
  | [], _ :: _, h1, _ => by simp [charListLtb] at h1
  | _ :: _, [], _, h2 => by simp [charListLtb] at h2
  | a :: as, b :: bs, h1, h2 => by
    by_cases hab : a < b
    · simp [charListLtb, hab] at h1
    · by_cases hba : b < a
      · simp [charListLtb, hba] at h2
      · have hab' : a = b := le_antisymm (not_lt.mp hba) (not_lt.mp hab)
        subst hab'
        simp only [charListLtb, if_neg hab, if_neg hba] at h1 h2
        exact congrArg (a :: ·) (charListLtb_eq as bs h1 h2)

theorem strLtb_asymm {a b : String} (h : strLtb a b = true) : strLtb b a = false :=
  charListLtb_asymm a.data b.data h

theorem strLtb_trans {a b c : String} (h1 : strLtb a b = true) (h2 : strLtb b c = true) :
    strLtb a c = true :=
  charListLtb_trans a.data b.data c.data h1 h2

theorem strLtb_eq {a b : String} (h1 : strLtb a b = false) (h2 : strLtb b a = false) :
    a = b := by
  cases a
  cases b
  exact congrArg String.mk (charListLtb_eq _ _ h1 h2)

theorem keyLeb_total : ∀ (a b : List String), keyLeb a b = true ∨ keyLeb b a = true
  | [], _ => Or.inl rfl
  | _ :: _, [] => Or.inr rfl
  | a :: as, b :: bs => by
    by_cases hab : strLtb a b = true
    · exact Or.inl (by simp [keyLeb, hab])
    · by_cases hba : strLtb b a = true
      · exact Or.inr (by simp [keyLeb, hba])
      · have hab' : a = b :=
          strLtb_eq (Bool.not_eq_true _ ▸ eq_false_of_ne_true hab)
            (Bool.not_eq_true _ ▸ eq_false_of_ne_true hba)
        subst hab'
        rcases keyLeb_total as bs with h | h
        · exact Or.inl (by simp [keyLeb, hab, h])
        · exact Or.inr (by simp [keyLeb, hab, h])

theorem keyLeb_antisymm : ∀ (a b : List String),
    keyLeb a b = true → keyLeb b a = true → a = b
  | [], [], _, _ => rfl
  | [], _ :: _, _, h2 => by simp [keyLeb] at h2
  | _ :: _, [], h1, _ => by simp [keyLeb] at h1
  | a :: as, b :: bs, h1, h2 => by
    by_cases hab : strLtb a b = true
    · have hba := strLtb_asymm hab
      simp [keyLeb, hab, hba] at h2
    · by_cases hba : strLtb b a = true
      · simp [keyLeb, hab, hba] at h1
      · have hab' : a = b :=
          strLtb_eq (eq_false_of_ne_true hab) (eq_false_of_ne_true hba)
        subst hab'
        simp only [keyLeb, if_neg hab] at h1 h2
        exact congrArg (a :: ·) (keyLeb_antisymm as bs h1 h2)

theorem keyLeb_trans : ∀ (a b c : List String),
    keyLeb a b = true → keyLeb b c = true → keyLeb a c = true
  | [], _, _, _, _ => rfl
  | _ :: _, [], _, h1, _ => by simp [keyLeb] at h1
  | _ :: _, _ :: _, [], _, h2 => by simp [keyLeb] at h2
  | a :: as, b :: bs, c :: cs, h1, h2 => by
    by_cases hab : strLtb a b = true
    · by_cases hbc : strLtb b c = true
      · simp [keyLeb, strLtb_trans hab hbc]
      · by_cases hcb : strLtb c b = true
        · simp [keyLeb, hbc, hcb] at h2
        · have hbc' : b = c :=
            strLtb_eq (eq_false_of_ne_true hbc) (eq_false_of_ne_true hcb)
          subst hbc'
          simp [keyLeb, hab]
    · by_cases hba : strLtb b a = true
      · simp [keyLeb, hab, hba] at h1
      · have hab' : a = b :=
          strLtb_eq (eq_false_of_ne_true hab) (eq_false_of_ne_true hba)
        subst hab'
        by_cases hac : strLtb a c = true
        · simp [keyLeb, hac]
        · by_cases hca : strLtb c a = true
          · simp [keyLeb, hac, hca] at h2
          · simp only [keyLeb, if_neg hab] at h1
            simp only [keyLeb, if_neg hac, if_neg hca] at h2 ⊢
            exact keyLeb_trans as bs cs h1 h2

theorem fileLe_total (a b : List String × FileContent) : fileLe a b ∨ fileLe b a :=
  keyLeb_total a.1 b.1

theorem fileLe_trans {a b c : List String × FileContent}
    (h1 : fileLe a b) (h2 : fileLe b c) : fileLe a c :=
  keyLeb_trans a.1 b.1 c.1 h1 h2

theorem fileLt_antisymm {a b : List String × FileContent}
    (h1 : fileLt a b) (h2 : fileLt b a) : a = b :=
  (h1.2 (keyLeb_antisymm a.1 b.1 h1.1 h2.1)).elim

theorem sortFiles_perm (files : List (List String × FileContent)) :
    (sortFiles files).Perm files :=
  List.perm_insertionSort fileLe files

theorem sortFiles_sorted (files : List (List String × FileContent)) :
    List.Sorted fileLe (sortFiles files) :=
  @List.sorted_insertionSort _ fileLe _ ⟨fileLe_total⟩ ⟨fun _ _ _ => fileLe_trans⟩ files

theorem sortFiles_eq_of_perm {f1 f2 : List (List String × FileContent)}
    (hperm : f1.Perm f2) (hnodup : (f1.map Prod.fst).Nodup) :
    sortFiles f1 = sortFiles f2 := by
  have hkeys1 : f1.Pairwise (fun a b => a.1 ≠ b.1) := List.pairwise_map.mp hnodup
  have hkeys2 : f2.Pairwise (fun a b => a.1 ≠ b.1) :=
    (hperm.pairwise_iff (fun h e => h e.symm)).mp hkeys1
  have hs1 : List.Pairwise fileLt (sortFiles f1) :=
    ((sortFiles_sorted f1).and
      (((sortFiles_perm f1).pairwise_iff (fun h e => h e.symm)).mpr hkeys1)).imp
      (fun h => h)
  have hs2 : List.Pairwise fileLt (sortFiles f2) :=
    ((sortFiles_sorted f2).and
      (((sortFiles_perm f2).pairwise_iff (fun h e => h e.symm)).mpr hkeys2)).imp
      (fun h => h)
  exact @List.eq_of_perm_of_sorted _ fileLt ⟨fun _ _ => fileLt_antisymm⟩ _ _
    ((sortFiles_perm f1).trans (hperm.trans (sortFiles_perm f2).symm)) hs1 hs2

theorem mem_writeFile_self (fs : List (List String × FileContent)) (p : List String)
    (c : FileContent) : (p, c) ∈ writeFile fs p c :=
  List.mem_append.mpr (Or.inr (List.mem_singleton.mpr rfl))

theorem mem_writeFile_of_ne {fs : List (List String × FileContent)}
    {q p : List String} {d c : FileContent} (h : (q, d) ∈ fs) (hne : q ≠ p) :
    (q, d) ∈ writeFile fs p c :=
  List.mem_append.mpr (Or.inl (List.mem_filter.mpr ⟨h, by simpa using hne⟩))

theorem mem_tarExtract_of_fresh : ∀ (entries : List TarEntry)
    (fs : List (List String × FileContent)) (q : List String) (d : FileContent),
    (q, d) ∈ fs → (∀ e ∈ entries, e.path ≠ q) → (q, d) ∈ tarExtract entries fs
  | [], _, _, _, h, _ => h
  | e :: es, fs, q, d, h, hfresh =>
    mem_tarExtract_of_fresh es (writeFile fs e.path e.contents) q d
      (mem_writeFile_of_ne h (fun hq => hfresh e (List.mem_cons_self e es) (hq ▸ rfl)))
      (fun e' he' => hfresh e' (List.mem_cons_of_mem e he'))

theorem mem_tarExtract_of_pairwise : ∀ (l : List (List String × FileContent))
    (fs : List (List String × FileContent)),
    l.Pairwise (fun a b => a.1 ≠ b.1) → ∀ f ∈ l, f ∈ tarExtract (l.map fileEntry) fs
  | [], _, _, _, hf => absurd hf (List.not_mem_nil _)
  | x :: rest, fs, hpair, f, hf => by
    rcases List.mem_cons.mp hf with rfl | hmem
    · refine mem_tarExtract_of_fresh (rest.map fileEntry)
        (writeFile fs f.1 f.2) f.1 f.2 (mem_writeFile_self fs f.1 f.2) ?_
      intro e he
      rcases List.mem_map.mp he with ⟨y, hy, rfl⟩
      exact fun hq => (List.pairwise_cons.mp hpair).1 y hy hq.symm
    · exact mem_tarExtract_of_pairwise rest (writeFile fs x.1 x.2)
        (List.pairwise_cons.mp hpair).2 f hmem

theorem mem_of_mem_tarExtract : ∀ (entries : List TarEntry)
    (fs : List (List String × FileContent)) (f : List String × FileContent),
    f ∈ tarExtract entries fs → f ∈ fs ∨ ∃ e ∈ entries, f = (e.path, e.contents)
  | [], _, _, h => Or.inl h
  | e :: es, fs, f, h => by
    rcases mem_of_mem_tarExtract es (writeFile fs e.path e.contents) f h with hw | ⟨e', he', rfl⟩
    · rcases List.mem_append.mp hw with hfil | hsing
      · exact Or.inl (List.mem_filter.mp hfil).1
      · exact Or.inr ⟨e, List.mem_cons_self e es, List.mem_singleton.mp hsing⟩
    · exact Or.inr ⟨e', List.mem_cons_of_mem e he', rfl⟩

theorem create_eq_ok {m : Manifest} {files : List (List String × FileContent)}
    {pkg : Compressed.Package} :
    Compressed.Package.create m files = Except.ok pkg ↔
      ∃ published, (Compressed.normalizeEdition m).package.isNone = false ∧
        (Compressed.normalizeEdition m).forPublishing = Except.ok published ∧
        pkg = ⟨Compressed.normalizeEdition m,
          ArchiveBytes.valid (Compressed.createEntries published
            (Compressed.normalizeEdition m) (sortFiles files))⟩ := by
  constructor
  · intro h
    by_cases hn : (Compressed.normalizeEdition m).package.isNone = true
    · simp [Compressed.Package.create, hn] at h
    · cases hpub : (Compressed.normalizeEdition m).forPublishing with
      | error e => simp [Compressed.Package.create, hn, hpub] at h
      | ok published =>
        refine ⟨published, eq_false_of_ne_true hn, rfl, ?_⟩
        simp [Compressed.Package.create, hn, hpub] at h
        exact h.symm
  · rintro ⟨published, hn, hpub, rfl⟩
    simp [Compressed.Package.create, hn, hpub]

theorem tarExtract_cons (e : TarEntry) (es : List TarEntry)
    (fs : List (List String × FileContent)) :
    tarExtract (e :: es) fs = tarExtract es (writeFile fs e.path e.contents) :=
  rfl

/-- C1: `PackageId::try_from` on the spec's five test vectors.  The claim
says `"a23"` is accepted, but the character check
`(c.is_ascii_alphanumeric() && c.is_ascii_lowercase()) || c == '-'` rejects
every digit (`is_ascii_lowercase` is false for digits), so `"a23"` is
rejected — contradicting the code's own error message, which permits
"lowercase alphanumeric ascii chars and dashes". -/
theorem packageId_validation_vectors :
    PackageId.tryFrom "ab" = Except.error IdError.tooShort ∧
    PackageId.tryFrom "1abc" = Except.error IdError.invalidCharacters ∧
    PackageId.tryFrom "My-Pkg" = Except.error IdError.invalidCharacters ∧
    PackageId.tryFrom "my-pkg" = Except.ok "my-pkg" ∧
    PackageId.tryFrom "a23" = Except.error IdError.invalidCharacters := by
  refine ⟨?_, ?_, ?_, ?_, ?_⟩ <;> decide

/-- C10: `parse` does not verify that the embedded manifest has a package
section: an archive holding a well-formed package-less manifest parses
successfully, and `name()` / `version()` on the result hit their
assertion (`none` models the panic). -/
theorem parse_accepts_packageless_manifest :
    Compressed.Package.parse packagelessArchive =
      Except.ok ⟨aggregationManifest, packagelessArchive⟩ ∧
    aggregationManifest.package = none ∧
    Compressed.Package.name ⟨aggregationManifest, packagelessArchive⟩ = none ∧
    Compressed.Package.version ⟨aggregationManifest, packagelessArchive⟩ = none :=
  ⟨rfl, rfl, rfl, rfl⟩

/-- C5 (counterexample): `PackageStore::unpack` in src/package.rs does *not*
ignore the `remove_dir_all` failure — it propagates it with `?`, so
unpacking into a not-yet-existing destination fails instead of
succeeding. -/
theorem packageStore_unpack_fails_without_destination :
    PackageStore.unpack
        ⟨⟨"demo", "1.0.0", PackageType.lib, none⟩, ArchiveBytes.valid []⟩ none =
      Except.error StoreError.removeFailed :=
  rfl

/-- C5 (amended): `Package::unpack` in src/package/compressed.rs removes the
destination ignoring any error (so it also succeeds when the destination
does not exist), recreates it, and extracts into the fresh directory: the
result is independent of the previous destination state and contains only
the newly extracted entries. -/
theorem compressed_unpack_destructive (p : Compressed.Package) (dest : DirState)
    (entries : List TarEntry) (h : gunzipEntries p.tgz = some entries) :
    Compressed.Package.unpack p dest = Except.ok (tarExtract entries []) ∧
    Compressed.Package.unpack p dest = Compressed.Package.unpack p none ∧
    ∀ f ∈ tarExtract entries [], ∃ e ∈ entries, f = (e.path, e.contents) := by
  refine ⟨?_, ?_, ?_⟩
  · simp [Compressed.Package.unpack, h, removeDirAllOk, createDirAll]
  · simp [Compressed.Package.unpack, h, removeDirAllOk, createDirAll]
  · intro f hf
    rcases mem_of_mem_tarExtract entries [] f hf with hnil | hex
    · exact absurd hnil (List.not_mem_nil f)
    · exact hex

theorem compressed_unpack_destructive_witness :
    Compressed.Package.unpack geoPackage (some [(["stale.proto"], FileContent.text "old")]) =
      Except.ok (tarExtract
        (Compressed.createEntries geoManifest geoManifest (sortFiles geoFiles)) []) ∧
    Compressed.Package.unpack geoPackage (some [(["stale.proto"], FileContent.text "old")]) =
      Compressed.Package.unpack geoPackage none ∧
    ∀ f ∈ tarExtract
        (Compressed.createEntries geoManifest geoManifest (sortFiles geoFiles)) [],
      ∃ e ∈ Compressed.createEntries geoManifest geoManifest (sortFiles geoFiles),
        f = (e.path, e.contents) :=
  compressed_unpack_destructive geoPackage (some [(["stale.proto"], FileContent.text "old")])
    (Compressed.createEntries geoManifest geoManifest (sortFiles geoFiles)) rfl

/-- C6: in `PackageStore::install`, the directory the dependencies of the
installed package are unpacked beneath is built from the *raw* package name
(`name.as_str()`), not from `as_package_dir`: installing `foo-bar` unpacks
the package itself into `proto/dep/foo_bar` but its dependency `baz` into
`proto/dep/foo-bar/baz` — the `-` → `_` mapping is not applied uniformly. -/
theorem install_places_dependencies_under_raw_name :
    PackageStore.install fooBarDependency demoRegistry =
      Except.ok [Event.download fooBarDependency,
        Event.unpackAt ["proto", "dep", "foo_bar"],
        Event.download bazDependency,
        Event.unpackAt ["proto", "dep", "foo-bar", "baz"]] ∧
    PackageId.asPackageDir "foo-bar" = "foo_bar" ∧
    ("foo-bar" : String) ≠ "foo_bar" := by
  refine ⟨rfl, rfl, ?_⟩
  decide

/-- C8: `release` of a `Lib`-kind manifest that declares any dependency
fails with the libraries-must-be-dependency-free error, before any archive
is built. -/
theorem release_lib_with_dependencies_fails (m : Manifest)
    (resolve : String → Option Manifest) (protoFiles : List (List String × FileContent))
    (pkg : PackageManifest) (hm : m.package = some pkg)
    (hk : pkg.kind = PackageType.lib) (hne : m.dependencies ≠ []) :
    PackageStore.release m resolve protoFiles =
      Except.error StoreError.libHasDependencies := by
  simp [PackageStore.release, hm, hk, hne]

theorem release_lib_with_dependencies_fails_witness :
    libWithDepManifest.package = some ⟨"geo", "1.0.0", PackageType.lib, none⟩ ∧
    (⟨"geo", "1.0.0", PackageType.lib, none⟩ : PackageManifest).kind = PackageType.lib ∧
    libWithDepManifest.dependencies ≠ [] ∧
    PackageStore.release libWithDepManifest apiStore [] =
      Except.error StoreError.libHasDependencies :=
  ⟨rfl, rfl, by decide,
    release_lib_with_dependencies_fails libWithDepManifest apiStore []
      ⟨"geo", "1.0.0", PackageType.lib, none⟩ rfl rfl (by decide)⟩

theorem checkDependencies_error_of_bad (resolve : String → Option Manifest) :
    ∀ (ds : List Dependency) (d : Dependency) (r : Manifest), d ∈ ds →
      resolve d.package = some r →
      (r.package = none ∨ ∃ p, r.package = some p ∧ p.kind = PackageType.api) →
      ∃ e, checkDependencies resolve ds = Except.error e
  | [], d, _, hd, _, _ => absurd hd (List.not_mem_nil d)
  | d' :: ds, d, r, hd, hr, hbad => by
    cases hres : resolve d'.package with
    | none => exact ⟨StoreError.resolveFailed, by simp [checkDependencies, hres]⟩
    | some r' =>
      cases hrp : r'.package with
      | none =>
        exact ⟨StoreError.depMissingPackageSection, by simp [checkDependencies, hres, hrp]⟩
      | some p' =>
        by_cases hk : p'.kind = PackageType.lib
        · rcases List.mem_cons.mp hd with rfl | hmem
          · rw [hr] at hres
            injection hres with hrr
            subst hrr
            rcases hbad with hnone | ⟨p, hp, hapi⟩
            · rw [hnone] at hrp
              exact Option.noConfusion hrp
            · rw [hp] at hrp
              injection hrp with hpp
              rw [← hpp, hapi] at hk
              exact absurd hk (by decide)
          · obtain ⟨e, he⟩ := checkDependencies_error_of_bad resolve ds d r hmem hr hbad
            exact ⟨e, by simp [checkDependencies, hres, hrp, hk, he]⟩
        · exact ⟨StoreError.depNotLib, by simp [checkDependencies, hres, hrp, hk]⟩

/-- C7: `release` fails whenever a declared dependency resolves locally to a
manifest whose package section is absent or whose kind is `Api` — the
archive is never built in that case. -/
theorem release_api_dependency_fails (m : Manifest)
    (resolve : String → Option Manifest) (protoFiles : List (List String × FileContent))
    (pkg : PackageManifest) (d : Dependency) (r : Manifest)
    (hm : m.package = some pkg) (hd : d ∈ m.dependencies)
    (hr : resolve d.package = some r)
    (hbad : r.package = none ∨ ∃ p, r.package = some p ∧ p.kind = PackageType.api) :
    ∃ e, PackageStore.release m resolve protoFiles = Except.error e := by
  by_cases hlib : pkg.kind = PackageType.lib ∧ m.dependencies ≠ []
  · exact ⟨StoreError.libHasDependencies, by simp [PackageStore.release, hm, hlib]⟩
  · obtain ⟨e, he⟩ := checkDependencies_error_of_bad resolve m.dependencies d r hd hr hbad
    exact ⟨e, by simp [PackageStore.release, hm, hlib, he]⟩

theorem release_api_dependency_fails_witness :
    apiClientManifest.package = some ⟨"client", "1.0.0", PackageType.api, none⟩ ∧
    (⟨"svc-api", "=1.0.0", some "registry", some "repo", none⟩ : Dependency) ∈
      apiClientManifest.dependencies ∧
    apiStore "svc-api" =
      some ⟨Edition.current, some ⟨"svc-api", "1.0.0", PackageType.api, none⟩, []⟩ ∧
    (∃ e, PackageStore.release apiClientManifest apiStore [] = Except.error e) :=
  ⟨rfl, by decide, rfl,
    release_api_dependency_fails apiClientManifest apiStore []
      ⟨"client", "1.0.0", PackageType.api, none⟩
      ⟨"svc-api", "=1.0.0", some "registry", some "repo", none⟩
      ⟨Edition.current, some ⟨"svc-api", "1.0.0", PackageType.api, none⟩, []⟩
      rfl (by decide) rfl
      (Or.inr ⟨⟨"svc-api", "1.0.0", PackageType.api, none⟩, rfl, rfl⟩)⟩

/-- C9: given archive bytes that decompress to `entries`, `parse` fails with
the missing-manifest error exactly when no entry's path ends with the
manifest filename (the `.orig` copy never matches, since `Path::ends_with`
compares whole components); and when a match exists, the first matching
entry in archive order is the one read as the manifest. -/
theorem parse_missing_manifest_iff (tgz : ArchiveBytes) (entries : List TarEntry)
    (h : gunzipEntries tgz = some entries) :
    (Compressed.Package.parse tgz = Except.error ArchiveError.missingManifest ↔
      ∀ e ∈ entries, pathEndsWithFile e.path manifestFileName = false) ∧
    ∀ e, entries.find? (fun x => pathEndsWithFile x.path manifestFileName) = some e →
      Compressed.Package.parse tgz =
        (tryParseContent e.contents).map (fun m => ⟨m, tgz⟩) := by
  constructor
  · constructor
    · intro hp e he
      cases hfind : entries.find? (fun x => pathEndsWithFile x.path manifestFileName) with
      | none =>
        exact Bool.not_eq_true _ ▸ (List.find?_eq_none.mp hfind e he)
      | some e' =>
        exfalso
        cases hcont : e'.contents <;>
          simp [Compressed.Package.parse, h, hfind, hcont, tryParseContent] at hp
    · intro hall
      have hfind : entries.find? (fun x => pathEndsWithFile x.path manifestFileName) = none :=
        List.find?_eq_none.mpr (fun x hx => by simp [hall x hx])
      simp [Compressed.Package.parse, h, hfind]
  · intro e hfind
    cases hc : tryParseContent e.contents with
    | ok mm => simp [Compressed.Package.parse, h, hfind, hc, Except.map]
    | error err => simp [Compressed.Package.parse, h, hfind, hc, Except.map]

theorem parse_missing_manifest_iff_witness :
    (Compressed.Package.parse
        (ArchiveBytes.valid [⟨["Proto.toml.orig"], 292, FileContent.text "x"⟩]) =
        Except.error ArchiveError.missingManifest ↔
      ∀ e ∈ [(⟨["Proto.toml.orig"], 292, FileContent.text "x"⟩ : TarEntry)],
        pathEndsWithFile e.path manifestFileName = false) ∧
    ∀ e, ([(⟨["Proto.toml.orig"], 292, FileContent.text "x"⟩ : TarEntry)]).find?
        (fun x => pathEndsWithFile x.path manifestFileName) = some e →
      Compressed.Package.parse
          (ArchiveBytes.valid [⟨["Proto.toml.orig"], 292, FileContent.text "x"⟩]) =
        (tryParseContent e.contents).map
          (fun m => ⟨m, ArchiveBytes.valid [⟨["Proto.toml.orig"], 292, FileContent.text "x"⟩]⟩) :=
  parse_missing_manifest_iff
    (ArchiveBytes.valid [⟨["Proto.toml.orig"], 292, FileContent.text "x"⟩])
    [⟨["Proto.toml.orig"], 292, FileContent.text "x"⟩] rfl

/-- C3: `create` emits the normalized manifest first, then the original
manifest under the `.orig` name, then every file of the map in ascending
lexicographic path order, all with the read-only mode `0o444`; and two calls
with the same manifest and the same logical file map — any insertion
order — produce byte-identical archives. -/
theorem create_deterministic_and_ordered (m : Manifest)
    (f1 f2 : List (List String × FileContent))
    (hperm : f1.Perm f2) (hnodup : (f1.map Prod.fst).Nodup) :
    Compressed.Package.create m f1 = Compressed.Package.create m f2 ∧
    ∀ pkg, Compressed.Package.create m f1 = Except.ok pkg →
      ∃ published, (Compressed.normalizeEdition m).forPublishing = Except.ok published ∧
        pkg.tgz = ArchiveBytes.valid
          (TarEntry.mk [manifestFileName] 0o444 (FileContent.manifestText true published) ::
            TarEntry.mk [manifestFileName ++ ".orig"] 0o444
              (FileContent.manifestText false (Compressed.normalizeEdition m)) ::
            (sortFiles f1).map fileEntry) ∧
        List.Sorted fileLe (sortFiles f1) ∧ (sortFiles f1).Perm f1 := by
  constructor
  · have hs : sortFiles f1 = sortFiles f2 := sortFiles_eq_of_perm hperm hnodup
    simp [Compressed.Package.create, hs]
  · intro pkg h
    obtain ⟨published, hn, hpub, rfl⟩ := create_eq_ok.mp h
    exact ⟨published, hpub, rfl, sortFiles_sorted f1, sortFiles_perm f1⟩

theorem create_deterministic_and_ordered_witness :
    geoFiles.Perm geoFilesSwapped ∧ (geoFiles.map Prod.fst).Nodup ∧
    (Compressed.Package.create geoManifest geoFiles =
        Compressed.Package.create geoManifest geoFilesSwapped ∧
      ∀ pkg, Compressed.Package.create geoManifest geoFiles = Except.ok pkg →
        ∃ published,
          (Compressed.normalizeEdition geoManifest).forPublishing = Except.ok published ∧
          pkg.tgz = ArchiveBytes.valid
            (TarEntry.mk [manifestFileName] 0o444
                (FileContent.manifestText true published) ::
              TarEntry.mk [manifestFileName ++ ".orig"] 0o444
                (FileContent.manifestText false (Compressed.normalizeEdition geoManifest)) ::
              (sortFiles geoFiles).map fileEntry) ∧
          List.Sorted fileLe (sortFiles geoFiles) ∧ (sortFiles geoFiles).Perm geoFiles) :=
  ⟨by decide, by decide,
    create_deterministic_and_ordered geoManifest geoFiles geoFilesSwapped
      (by decide) (by decide)⟩

/-- C2: whenever `create manifest files` produces a package, `parse` of its
archive bytes succeeds and returns exactly the publishing-normalized form of
the (edition-normalized) input manifest, and `unpack` into any destination
succeeds and yields contents containing every file of the map with
byte-identical content. -/
theorem create_parse_roundtrip (m : Manifest) (files : List (List String × FileContent))
    (pkg : Compressed.Package) (hnodup : (files.map Prod.fst).Nodup)
    (h : Compressed.Package.create m files = Except.ok pkg) :
    ∃ published, (Compressed.normalizeEdition m).forPublishing = Except.ok published ∧
      Compressed.Package.parse pkg.tgz = Except.ok ⟨published, pkg.tgz⟩ ∧
      ∀ dest, ∃ fsys, Compressed.Package.unpack pkg dest = Except.ok fsys ∧
        ∀ f ∈ files, f ∈ fsys := by
  obtain ⟨published, hn, hpub, rfl⟩ := create_eq_ok.mp h
  refine ⟨published, hpub, rfl, ?_⟩
  intro dest
  refine ⟨tarExtract (Compressed.createEntries published
    (Compressed.normalizeEdition m) (sortFiles files)) [], rfl, ?_⟩
  intro f hf
  have hpairf : files.Pairwise (fun a b => a.1 ≠ b.1) := List.pairwise_map.mp hnodup
  have hpair : (sortFiles files).Pairwise (fun a b => a.1 ≠ b.1) :=
    (((sortFiles_perm files).pairwise_iff (fun h e => h e.symm)).mpr hpairf)
  have hmem : f ∈ sortFiles files := ((sortFiles_perm files).mem_iff).mpr hf
  have : f ∈ tarExtract ((sortFiles files).map fileEntry)
      (writeFile (writeFile [] [manifestFileName]
          (FileContent.manifestText true published))
        [manifestFileName ++ ".orig"]
          (FileContent.manifestText false (Compressed.normalizeEdition m))) :=
    mem_tarExtract_of_pairwise (sortFiles files) _ hpair f hmem
  exact this

theorem create_parse_roundtrip_witness :
    (geoFiles.map Prod.fst).Nodup ∧
    Compressed.Package.create geoManifest geoFiles = Except.ok geoPackage ∧
    (∃ published,
      (Compressed.normalizeEdition geoManifest).forPublishing = Except.ok published ∧
      Compressed.Package.parse geoPackage.tgz = Except.ok ⟨published, geoPackage.tgz⟩ ∧
      ∀ dest, ∃ fsys, Compressed.Package.unpack geoPackage dest = Except.ok fsys ∧
        ∀ f ∈ geoFiles, f ∈ fsys) :=
  ⟨by decide, rfl, create_parse_roundtrip geoManifest geoFiles geoPackage (by decide) rfl⟩

theorem installDeps_ok (registry : Dependency → Option Package)
    (packageDir : List String) (f : Dependency → Package) :
    ∀ ds : List Dependency, (∀ d ∈ ds, registry d = some (f d)) →
      installDeps registry packageDir ds = Except.ok
        ((ds.map (fun d => [Event.download d,
          Event.unpackAt (packageDir ++ [PackageId.asPackageDir (f d).manifest.name])])).flatten)
  | [], _ => rfl
  | d :: ds, hall => by
    have hd := hall d (List.mem_cons_self d ds)
    have ih := installDeps_ok registry packageDir f ds
      (fun x hx => hall x (List.mem_cons_of_mem d hx))
    simp [installDeps, hd, ih]

theorem downloadsOf_expected (packageDir : List String) (f : Dependency → Package) :
    ∀ ds : List Dependency,
      downloadsOf ((ds.map (fun d => [Event.download d,
        Event.unpackAt (packageDir ++ [PackageId.asPackageDir (f d).manifest.name])])).flatten) = ds
  | [] => rfl
  | d :: ds =>
    congrArg (fun l => d :: l) (downloadsOf_expected packageDir f ds)

/-- C4: `install` performs exactly one additional level of fetching: it
downloads the requested dependency, unpacks it into the shared dependency
directory, resolves the unpacked manifest, and then downloads and unpacks
each of *that* manifest's dependencies beneath the package's own directory,
in declaration order; the downloads are exactly the requested dependency
followed by the resolved manifest's dependencies — nothing deeper. -/
theorem install_fetches_one_level (dep : Dependency)
    (registry : Dependency → Option Package) (pkg : Package) (m : Manifest)
    (f : Dependency → Package)
    (hpkg : registry dep = some pkg)
    (hres : resolveInstalled pkg = Except.ok m)
    (hdeps : ∀ d ∈ m.dependencies, registry d = some (f d)) :
    ∃ evs, PackageStore.install dep registry = Except.ok evs ∧
      evs = Event.download dep ::
        Event.unpackAt (protoDepPath ++ [PackageId.asPackageDir pkg.manifest.name]) ::
        ((m.dependencies.map (fun d => [Event.download d,
          Event.unpackAt ((protoDepPath ++ [pkg.manifest.name]) ++
            [PackageId.asPackageDir (f d).manifest.name])])).flatten) ∧
      downloadsOf evs = dep :: m.dependencies := by
  have hid := installDeps_ok registry (protoDepPath ++ [pkg.manifest.name]) f
    m.dependencies hdeps
  refine ⟨_, ?_, rfl, ?_⟩
  · simp [PackageStore.install, hpkg, hres, hid]
  · exact congrArg (fun l => dep :: l)
      (downloadsOf_expected (protoDepPath ++ [pkg.manifest.name]) f m.dependencies)

theorem install_fetches_one_level_witness :
    demoRegistry fooBarDependency = some fooBarPackage ∧
    resolveInstalled fooBarPackage = Except.ok fooBarManifest ∧
    (∀ d ∈ fooBarManifest.dependencies, demoRegistry d = some (demoRegistryPick d)) ∧
    (∃ evs, PackageStore.install fooBarDependency demoRegistry = Except.ok evs ∧
      evs = Event.download fooBarDependency ::
        Event.unpackAt (protoDepPath ++
          [PackageId.asPackageDir fooBarPackage.manifest.name]) ::
        ((fooBarManifest.dependencies.map (fun d => [Event.download d,
          Event.unpackAt ((protoDepPath ++ [fooBarPackage.manifest.name]) ++
            [PackageId.asPackageDir (demoRegistryPick d).manifest.name])])).flatten) ∧
      downloadsOf evs = fooBarDependency :: fooBarManifest.dependencies) :=
  ⟨rfl, rfl, by decide,
    install_fetches_one_level fooBarDependency demoRegistry fooBarPackage fooBarManifest
      demoRegistryPick rfl rfl (by decide)⟩

end Buffrs
